import Mathlib

/-!
Verification development for the label-OCR pipeline in `src/backend/main.py`.

The pipeline stages modelled here (each definition is a shallow embedding of
the corresponding Python function, with NumPy/OpenCV machine arithmetic
rendered as exact `Nat`/`Int`/`Rat` arithmetic):

* `crop_label_rect`   — the padded-and-clamped crop rectangle of `crop_label`;
* `resize_cap_dims`   — the output dimensions of the resize performed by
                        `run_fallback_ocr`;
* `detect_label_region` — the contour filter/selection loop of
                        `detect_label_region` (the OpenCV mask construction
                        and `findContours` are opaque producers of the
                        contour list, which is taken as input);
* `segment_text_lines` — the full line segmenter, including OpenCV's
                        reference Otsu threshold computation and
                        `THRESH_BINARY_INV` binarization;
* `process_image`     — the `/ocr` request dispatcher, parameterized over the
                        stage functions and the two recognition collaborators
                        (which the spec treats as opaque), with collaborator
                        failure modelled by `Except`.
-/

set_option maxHeartbeats 1000000

set_option maxRecDepth 40000

namespace OcrPipeline

/-! ### Configuration constants (src/backend/main.py lines 49-61, 131-138) -/

def MAX_IMAGE_SIDE : ℕ := 1920

def LABEL_MIN_AREA_FRACTION : ℚ := 1/100

def LABEL_MIN_SOLIDITY : ℚ := 7/10

def LABEL_ASPECT_RANGE : ℚ × ℚ := (1/2, 5)

def LABEL_CROP_PAD : ℚ := 2/100

def SEG_ROW_INK_FRACTION : ℚ := 2/100

def SEG_MIN_BAND_HEIGHT : ℕ := 15

def SEG_BAND_PAD_FRACTION : ℚ := 15/100

def SEG_COL_MIN_INK : ℚ := 2

/-- `FLT_EPSILON` (2^-23), used by OpenCV's Otsu threshold routine. -/
def FLT_EPSILON : ℚ := 1/8388608

/-! ### Region Extractor: `crop_label` (main.py lines 112-128)

The Python function computes `pad_x = int(w * LABEL_CROP_PAD)` (truncation of
a nonnegative value, i.e. floor), then clamps
`x1 = max(0, x - pad_x)`, `x2 = min(img_w, x + w + pad_x)` and slices.
The padding fraction is kept as a parameter `f`; the source fixes
`f = LABEL_CROP_PAD`. -/

structure CropRect where
  x1 : ℤ
  y1 : ℤ
  x2 : ℤ
  y2 : ℤ
deriving DecidableEq

def crop_label_rect (imgW imgH x y w h : ℤ) (f : ℚ) : CropRect :=
  let padX : ℤ := ⌊(w : ℚ) * f⌋
  let padY : ℤ := ⌊(h : ℚ) * f⌋
  ⟨max 0 (x - padX), max 0 (y - padY), min imgW (x + w + padX), min imgH (y + h + padY)⟩

/-- Number of pixel columns of the slice `img[y1:y2, x1:x2]`. -/
def crop_width (imgW imgH x y w h : ℤ) (f : ℚ) : ℤ :=
  max 0 ((crop_label_rect imgW imgH x y w h f).x2 - (crop_label_rect imgW imgH x y w h f).x1)

/-- Number of pixel rows of the slice `img[y1:y2, x1:x2]`. -/
def crop_height (imgW imgH x y w h : ℤ) (f : ℚ) : ℤ :=
  max 0 ((crop_label_rect imgW imgH x y w h f).y2 - (crop_label_rect imgW imgH x y w h f).y1)

lemma floor_mul_nonneg (w : ℤ) (f : ℚ) (hw : 0 ≤ w) (hf : 0 ≤ f) :
    0 ≤ ⌊(w : ℚ) * f⌋ := by
  have : (0 : ℚ) ≤ (w : ℚ) * f := mul_nonneg (by exact_mod_cast hw) hf
  exact Int.le_floor.mpr (by simpa using this)

/-- Claim C4: for a bounding box with positive width and height lying within
the image, the padded-then-clamped crop rectangle of `crop_label` lies
entirely within the image bounds and is non-empty. -/
theorem crop_label_in_bounds (imgW imgH x y w h : ℤ)
    (hx : 0 ≤ x) (hy : 0 ≤ y) (hw : 0 < w) (hh : 0 < h)
    (hxw : x + w ≤ imgW) (hyh : y + h ≤ imgH) :
    0 ≤ (crop_label_rect imgW imgH x y w h LABEL_CROP_PAD).x1 ∧
    0 ≤ (crop_label_rect imgW imgH x y w h LABEL_CROP_PAD).y1 ∧
    (crop_label_rect imgW imgH x y w h LABEL_CROP_PAD).x2 ≤ imgW ∧
    (crop_label_rect imgW imgH x y w h LABEL_CROP_PAD).y2 ≤ imgH ∧
    (crop_label_rect imgW imgH x y w h LABEL_CROP_PAD).x1 <
      (crop_label_rect imgW imgH x y w h LABEL_CROP_PAD).x2 ∧
    (crop_label_rect imgW imgH x y w h LABEL_CROP_PAD).y1 <
      (crop_label_rect imgW imgH x y w h LABEL_CROP_PAD).y2 := by
  have hpadx : 0 ≤ ⌊(w : ℚ) * LABEL_CROP_PAD⌋ :=
    floor_mul_nonneg w LABEL_CROP_PAD (le_of_lt hw) (by norm_num [LABEL_CROP_PAD])
  have hpady : 0 ≤ ⌊(h : ℚ) * LABEL_CROP_PAD⌋ :=
    floor_mul_nonneg h LABEL_CROP_PAD (le_of_lt hh) (by norm_num [LABEL_CROP_PAD])
  simp only [crop_label_rect]
  omega

/-- Claim C4 witness: a 100×80 image with box (10, 10, 30, 20). -/
theorem crop_label_in_bounds_witness :
    0 ≤ (crop_label_rect 100 80 10 10 30 20 LABEL_CROP_PAD).x1 ∧
    0 ≤ (crop_label_rect 100 80 10 10 30 20 LABEL_CROP_PAD).y1 ∧
    (crop_label_rect 100 80 10 10 30 20 LABEL_CROP_PAD).x2 ≤ 100 ∧
    (crop_label_rect 100 80 10 10 30 20 LABEL_CROP_PAD).y2 ≤ 80 ∧
    (crop_label_rect 100 80 10 10 30 20 LABEL_CROP_PAD).x1 <
      (crop_label_rect 100 80 10 10 30 20 LABEL_CROP_PAD).x2 ∧
    (crop_label_rect 100 80 10 10 30 20 LABEL_CROP_PAD).y1 <
      (crop_label_rect 100 80 10 10 30 20 LABEL_CROP_PAD).y2 :=
  crop_label_in_bounds 100 80 10 10 30 20 (by decide) (by decide) (by decide)
    (by decide) (by decide) (by decide)

/-- Claim C8: with the padding fraction generalized to a parameter, the width
and height of the clamped crop increase monotonically in the fraction. -/
theorem crop_label_monotone (imgW imgH x y w h : ℤ) (f1 f2 : ℚ)
    (hx : 0 ≤ x) (hy : 0 ≤ y) (hw : 0 < w) (hh : 0 < h)
    (hxw : x + w ≤ imgW) (hyh : y + h ≤ imgH)
    (hf1 : 0 ≤ f1) (hf12 : f1 ≤ f2) :
    crop_width imgW imgH x y w h f1 ≤ crop_width imgW imgH x y w h f2 ∧
    crop_height imgW imgH x y w h f1 ≤ crop_height imgW imgH x y w h f2 := by
  have hpx : ⌊(w : ℚ) * f1⌋ ≤ ⌊(w : ℚ) * f2⌋ :=
    Int.floor_le_floor (mul_le_mul_of_nonneg_left hf12 (by exact_mod_cast le_of_lt hw))
  have hpy : ⌊(h : ℚ) * f1⌋ ≤ ⌊(h : ℚ) * f2⌋ :=
    Int.floor_le_floor (mul_le_mul_of_nonneg_left hf12 (by exact_mod_cast le_of_lt hh))
  simp only [crop_width, crop_height, crop_label_rect]
  omega

/-- Claim C8 witness: fractions 1/100 ≤ 1/10 on a concrete box. -/
theorem crop_label_monotone_witness :
    crop_width 100 80 10 10 30 20 (1/100) ≤ crop_width 100 80 10 10 30 20 (1/10) ∧
    crop_height 100 80 10 10 30 20 (1/100) ≤ crop_height 100 80 10 10 30 20 (1/10) :=
  crop_label_monotone 100 80 10 10 30 20 (1/100) (1/10) (by decide) (by decide)
    (by decide) (by decide) (by decide) (by decide) (by norm_num) (by norm_num)

/-! ### Fallback resize: `run_fallback_ocr`, main.py lines 225-233

`cv2.resize` is called with target size
`(max(1, int(width * scale)), max(1, int(height * scale)))` where
`scale = MAX_IMAGE_SIDE / longest_side`; only the output dimensions are
modelled (the INTER_AREA resampling of pixel values is opaque).
`int` truncation of a nonnegative value is floor. -/

def resize_cap_dims (height width : ℕ) : ℕ × ℕ :=
  let longest_side := max height width
  if MAX_IMAGE_SIDE < longest_side then
    let scale : ℚ := (MAX_IMAGE_SIDE : ℚ) / (longest_side : ℚ)
    (max 1 (Int.toNat ⌊(height : ℚ) * scale⌋), max 1 (Int.toNat ⌊(width : ℚ) * scale⌋))
  else (height, width)

lemma clamped_floor_close (q : ℚ) (hq : 0 < q) :
    |((max 1 (Int.toNat ⌊q⌋) : ℕ) : ℚ) - q| < 1 := by
  have hfl : (0 : ℤ) ≤ ⌊q⌋ := Int.le_floor.mpr (by exact_mod_cast hq.le)
  by_cases h1 : ⌊q⌋ = 0
  · have hq1 : q < 1 := by
      have h := Int.lt_floor_add_one q
      rw [h1] at h
      simpa using h
    have hmax : max 1 (Int.toNat ⌊q⌋) = 1 := by
      rw [h1]
      rfl
    rw [hmax]
    rw [abs_sub_lt_iff]
    constructor <;> push_cast <;> linarith
  · have h2 : (1 : ℤ) ≤ ⌊q⌋ := by omega
    have hmax : (max 1 (Int.toNat ⌊q⌋) : ℕ) = Int.toNat ⌊q⌋ := by omega
    rw [hmax]
    have hcast : ((Int.toNat ⌊q⌋ : ℕ) : ℚ) = ((⌊q⌋ : ℤ) : ℚ) := by
      exact_mod_cast congrArg (fun z : ℤ => (z : ℚ)) (Int.toNat_of_nonneg hfl)
    rw [hcast]
    have hle : ((⌊q⌋ : ℤ) : ℚ) ≤ q := Int.floor_le q
    have hgt : q - 1 < ((⌊q⌋ : ℤ) : ℚ) := Int.sub_one_lt_floor q
    rw [abs_sub_lt_iff]
    constructor <;> linarith

/-- Claim C7: images whose longest side is at or below `MAX_IMAGE_SIDE` pass
through unresized; larger images are downsampled so the longest output side
is at most `MAX_IMAGE_SIDE`, with the aspect ratio preserved up to the
rounding of each side (cross products differ by less than one rounding unit
per side). -/
theorem resize_cap_spec (height width : ℕ) (hh : 0 < height) (hw : 0 < width) :
    (max height width ≤ MAX_IMAGE_SIDE → resize_cap_dims height width = (height, width)) ∧
    (MAX_IMAGE_SIDE < max height width →
      max (resize_cap_dims height width).1 (resize_cap_dims height width).2 ≤ MAX_IMAGE_SIDE ∧
      |((resize_cap_dims height width).1 : ℚ) * ((width : ℕ) : ℚ) -
        ((resize_cap_dims height width).2 : ℚ) * ((height : ℕ) : ℚ)| <
        ((height : ℕ) : ℚ) + ((width : ℕ) : ℚ)) := by
  constructor
  · intro hle
    simp [resize_cap_dims, Nat.not_lt.mpr hle]
  · intro hgt
    have hL0 : (0 : ℚ) < ((max height width : ℕ) : ℚ) := by
      have : 0 < max height width := lt_of_le_of_lt (Nat.zero_le _) hgt
      exact_mod_cast this
    have hLne : ((max height width : ℕ) : ℚ) ≠ 0 := ne_of_gt hL0
    have hs0 : (0 : ℚ) < (MAX_IMAGE_SIDE : ℚ) / ((max height width : ℕ) : ℚ) := by
      apply div_pos _ hL0
      norm_num [MAX_IMAGE_SIDE]
    have hbr : resize_cap_dims height width =
        (max 1 (Int.toNat ⌊(height : ℚ) * ((MAX_IMAGE_SIDE : ℚ) / ((max height width : ℕ) : ℚ))⌋),
         max 1 (Int.toNat ⌊(width : ℚ) * ((MAX_IMAGE_SIDE : ℚ) / ((max height width : ℕ) : ℚ))⌋)) := by
      simp only [resize_cap_dims]
      rw [if_pos hgt]
    have hside : ∀ d : ℕ, d ≤ max height width →
        max 1 (Int.toNat ⌊(d : ℚ) * ((MAX_IMAGE_SIDE : ℚ) / ((max height width : ℕ) : ℚ))⌋) ≤
          MAX_IMAGE_SIDE := by
      intro d hd
      have hmul : (d : ℚ) * ((MAX_IMAGE_SIDE : ℚ) / ((max height width : ℕ) : ℚ)) ≤
          (MAX_IMAGE_SIDE : ℚ) := by
        rw [mul_div_assoc']
        rw [div_le_iff hL0]
        have hdq : (d : ℚ) ≤ ((max height width : ℕ) : ℚ) := by exact_mod_cast hd
        calc (d : ℚ) * (MAX_IMAGE_SIDE : ℚ)
            ≤ ((max height width : ℕ) : ℚ) * (MAX_IMAGE_SIDE : ℚ) := by
              apply mul_le_mul_of_nonneg_right hdq
              norm_num [MAX_IMAGE_SIDE]
          _ = (MAX_IMAGE_SIDE : ℚ) * ((max height width : ℕ) : ℚ) := by ring
      have hfloor : ⌊(d : ℚ) * ((MAX_IMAGE_SIDE : ℚ) / ((max height width : ℕ) : ℚ))⌋ ≤
          (MAX_IMAGE_SIDE : ℤ) := by
        have := Int.floor_le_floor hmul
        simpa using this
      have hmx : 1 ≤ MAX_IMAGE_SIDE := by norm_num [MAX_IMAGE_SIDE]
      omega
    constructor
    · rw [hbr]
      exact max_le (hside height (le_max_left _ _)) (hside width (le_max_right _ _))
    · have ha := clamped_floor_close
        ((height : ℚ) * ((MAX_IMAGE_SIDE : ℚ) / ((max height width : ℕ) : ℚ)))
        (by positivity)
      have hb := clamped_floor_close
        ((width : ℚ) * ((MAX_IMAGE_SIDE : ℚ) / ((max height width : ℕ) : ℚ)))
        (by positivity)
      rw [hbr]
      set s : ℚ := (MAX_IMAGE_SIDE : ℚ) / ((max height width : ℕ) : ℚ) with hsdef
      set A : ℕ := max 1 (Int.toNat ⌊(height : ℚ) * s⌋) with hA
      set B : ℕ := max 1 (Int.toNat ⌊(width : ℚ) * s⌋) with hB
      have key : (A : ℚ) * ((width : ℕ) : ℚ) - (B : ℚ) * ((height : ℕ) : ℚ) =
          ((A : ℚ) - (height : ℚ) * s) * (width : ℚ) -
            ((B : ℚ) - (width : ℚ) * s) * (height : ℚ) := by ring
      rw [key]
      have hwq : (0 : ℚ) < (width : ℚ) := by exact_mod_cast hw
      have hhq : (0 : ℚ) < (height : ℚ) := by exact_mod_cast hh
      calc |((A : ℚ) - (height : ℚ) * s) * (width : ℚ) -
              ((B : ℚ) - (width : ℚ) * s) * (height : ℚ)|
          ≤ |((A : ℚ) - (height : ℚ) * s) * (width : ℚ)| +
              |((B : ℚ) - (width : ℚ) * s) * (height : ℚ)| := abs_sub _ _
        _ = |(A : ℚ) - (height : ℚ) * s| * (width : ℚ) +
              |(B : ℚ) - (width : ℚ) * s| * (height : ℚ) := by
              rw [abs_mul, abs_mul, abs_of_pos hwq, abs_of_pos hhq]
        _ < 1 * (width : ℚ) + 1 * (height : ℚ) := by
              apply add_lt_add
              · exact mul_lt_mul_of_pos_right ha hwq
              · exact mul_lt_mul_of_pos_right hb hhq
        _ = ((height : ℕ) : ℚ) + ((width : ℕ) : ℚ) := by push_cast; ring

/-- Claim C7 witness: a 3840×960 image is downscaled, a 100×200 image is not. -/
theorem resize_cap_spec_witness :
    (max (resize_cap_dims 3840 960).1 (resize_cap_dims 3840 960).2 ≤ MAX_IMAGE_SIDE ∧
      |((resize_cap_dims 3840 960).1 : ℚ) * (((960 : ℕ) : ℕ) : ℚ) -
        ((resize_cap_dims 3840 960).2 : ℚ) * (((3840 : ℕ) : ℕ) : ℚ)| <
        (((3840 : ℕ) : ℕ) : ℚ) + (((960 : ℕ) : ℕ) : ℚ)) ∧
    resize_cap_dims 100 200 = (100, 200) :=
  ⟨(resize_cap_spec 3840 960 (by decide) (by decide)).2 (by decide),
   (resize_cap_spec 100 200 (by decide) (by decide)).1 (by decide)⟩

/-! ### Region Detector: `detect_label_region` (main.py lines 64-109)

The HSV masking, morphology and `cv2.findContours` are opaque producers of
the contour list; each contour is abstracted by its `cv2.contourArea`
(a nonnegative half-integer, modelled exactly as a rational) and its
`cv2.boundingRect` `(x, y, w, h)`.  The filter/selection loop over that list
(lines 89-109) is embedded verbatim: reject small area, zero bounding-rect
area, low solidity, out-of-range aspect; keep the strictly largest area. -/

structure Contour where
  area : ℚ
  x : ℕ
  y : ℕ
  w : ℕ
  h : ℕ
deriving DecidableEq

abbrev BBox := ℕ × ℕ × ℕ × ℕ

def bboxOf (c : Contour) : BBox := (c.x, c.y, c.w, c.h)

/-- `min_area = img_area * LABEL_MIN_AREA_FRACTION` (main.py lines 86-87). -/
def minAreaOf (imgH imgW : ℕ) : ℚ := ((imgH * imgW : ℕ) : ℚ) * LABEL_MIN_AREA_FRACTION

/-- The `for cnt in contours` loop of `detect_label_region` with its `best` /
`best_area` accumulator (main.py lines 89-107). -/
def selectBest (minArea : ℚ) (best : Option BBox) (bestArea : ℚ) :
    List Contour → Option BBox
  | [] => best
  | c :: rest =>
    if c.area < minArea then selectBest minArea best bestArea rest
    else if c.w * c.h = 0 then selectBest minArea best bestArea rest
    else if c.area / ((c.w * c.h : ℕ) : ℚ) < LABEL_MIN_SOLIDITY then
      selectBest minArea best bestArea rest
    else if (c.w : ℚ) / (c.h : ℚ) < LABEL_ASPECT_RANGE.1 ∨
        LABEL_ASPECT_RANGE.2 < (c.w : ℚ) / (c.h : ℚ) then
      selectBest minArea best bestArea rest
    else if bestArea < c.area then selectBest minArea (some (bboxOf c)) c.area rest
    else selectBest minArea best bestArea rest

def detect_label_region (imgH imgW : ℕ) (contours : List Contour) : Option BBox :=
  if contours.isEmpty then none
  else selectBest (minAreaOf imgH imgW) none 0 contours

/-- A contour passes all four rejection filters of the loop. -/
def survives (minArea : ℚ) (c : Contour) : Prop :=
  ¬ c.area < minArea ∧ ¬ c.w * c.h = 0 ∧
    ¬ c.area / ((c.w * c.h : ℕ) : ℚ) < LABEL_MIN_SOLIDITY ∧
    ¬ ((c.w : ℚ) / (c.h : ℚ) < LABEL_ASPECT_RANGE.1 ∨
      LABEL_ASPECT_RANGE.2 < (c.w : ℚ) / (c.h : ℚ))

instance (minArea : ℚ) (c : Contour) : Decidable (survives minArea c) := by
  unfold survives
  infer_instance

lemma survives_area_pos (minArea : ℚ) (c : Contour) (hc : survives minArea c) :
    0 < c.area := by
  obtain ⟨h1, h2, h3, h4⟩ := hc
  have hwh : (0 : ℚ) < ((c.w * c.h : ℕ) : ℚ) := by
    have h0 : 0 < c.w * c.h := Nat.pos_of_ne_zero h2
    exact_mod_cast h0
  have hsol : LABEL_MIN_SOLIDITY ≤ c.area / ((c.w * c.h : ℕ) : ℚ) := not_lt.mp h3
  have hmul : LABEL_MIN_SOLIDITY * ((c.w * c.h : ℕ) : ℚ) ≤ c.area := (le_div_iff hwh).mp hsol
  have hpos : (0 : ℚ) < LABEL_MIN_SOLIDITY * ((c.w * c.h : ℕ) : ℚ) := by
    apply mul_pos _ hwh
    norm_num [LABEL_MIN_SOLIDITY]
  linarith

lemma selectBest_cons_reject (minArea : ℚ) (best : Option BBox) (bestArea : ℚ)
    (c : Contour) (rest : List Contour) (hs : ¬ survives minArea c) :
    selectBest minArea best bestArea (c :: rest) = selectBest minArea best bestArea rest := by
  simp only [selectBest]
  by_cases h1 : c.area < minArea
  · rw [if_pos h1]
  · rw [if_neg h1]
    by_cases h2 : c.w * c.h = 0
    · rw [if_pos h2]
    · rw [if_neg h2]
      by_cases h3 : c.area / ((c.w * c.h : ℕ) : ℚ) < LABEL_MIN_SOLIDITY
      · rw [if_pos h3]
      · rw [if_neg h3]
        by_cases h4 : (c.w : ℚ) / (c.h : ℚ) < LABEL_ASPECT_RANGE.1 ∨
            LABEL_ASPECT_RANGE.2 < (c.w : ℚ) / (c.h : ℚ)
        · rw [if_pos h4]
        · exact absurd ⟨h1, h2, h3, h4⟩ hs

lemma selectBest_cons_accept (minArea : ℚ) (best : Option BBox) (bestArea : ℚ)
    (c : Contour) (rest : List Contour) (hs : survives minArea c) :
    selectBest minArea best bestArea (c :: rest) =
      if bestArea < c.area then selectBest minArea (some (bboxOf c)) c.area rest
      else selectBest minArea best bestArea rest := by
  obtain ⟨h1, h2, h3, h4⟩ := hs
  simp only [selectBest]
  rw [if_neg h1, if_neg h2, if_neg h3, if_neg h4]

lemma selectBest_some_isSome (minArea : ℚ) (cs : List Contour) :
    ∀ (b : BBox) (ba : ℚ), ∃ r, selectBest minArea (some b) ba cs = some r := by
  induction cs with
  | nil => exact fun b ba => ⟨b, rfl⟩
  | cons c rest ih =>
    intro b ba
    by_cases hs : survives minArea c
    · rw [selectBest_cons_accept minArea (some b) ba c rest hs]
      by_cases hlt : ba < c.area
      · rw [if_pos hlt]
        exact ih (bboxOf c) c.area
      · rw [if_neg hlt]
        exact ih b ba
    · rw [selectBest_cons_reject minArea (some b) ba c rest hs]
      exact ih b ba

lemma selectBest_go (minArea : ℚ) (cs : List Contour) :
    ∀ (bb : BBox) (ba : ℚ),
      (selectBest minArea (some bb) ba cs = some bb ∧
        ∀ c ∈ cs, survives minArea c → c.area ≤ ba) ∨
      (∃ l1 c l2, cs = l1 ++ c :: l2 ∧ survives minArea c ∧ ba < c.area ∧
        selectBest minArea (some bb) ba cs = some (bboxOf c) ∧
        (∀ c2 ∈ l1, survives minArea c2 → c2.area < c.area) ∧
        (∀ c2 ∈ l2, survives minArea c2 → c2.area ≤ c.area)) := by
  induction cs with
  | nil =>
    intro bb ba
    left
    exact ⟨rfl, by simp⟩
  | cons c0 rest ih =>
    intro bb ba
    by_cases hs : survives minArea c0
    · by_cases hlt : ba < c0.area
      · have hsel : selectBest minArea (some bb) ba (c0 :: rest) =
            selectBest minArea (some (bboxOf c0)) c0.area rest := by
          rw [selectBest_cons_accept minArea (some bb) ba c0 rest hs, if_pos hlt]
        rcases ih (bboxOf c0) c0.area with ⟨heq, hall⟩ |
          ⟨l1, c, l2, hsplit, hsc, hba, hres, hl1, hl2⟩
        · right
          exact ⟨[], c0, rest, rfl, hs, hlt, by rw [hsel, heq], by simp, hall⟩
        · right
          refine ⟨c0 :: l1, c, l2, by simp [hsplit], hsc, lt_trans hlt hba,
            by rw [hsel, hres], ?_, hl2⟩
          intro c2 hc2 hsc2
          rcases List.mem_cons.mp hc2 with rfl | hc2m
          · exact hba
          · exact hl1 c2 hc2m hsc2
      · have hsel : selectBest minArea (some bb) ba (c0 :: rest) =
            selectBest minArea (some bb) ba rest := by
          rw [selectBest_cons_accept minArea (some bb) ba c0 rest hs, if_neg hlt]
        rcases ih bb ba with ⟨heq, hall⟩ | ⟨l1, c, l2, hsplit, hsc, hba, hres, hl1, hl2⟩
        · left
          refine ⟨by rw [hsel, heq], ?_⟩
          intro c2 hc2 hsc2
          rcases List.mem_cons.mp hc2 with rfl | hc2m
          · exact not_lt.mp hlt
          · exact hall c2 hc2m hsc2
        · right
          refine ⟨c0 :: l1, c, l2, by simp [hsplit], hsc, hba, by rw [hsel, hres], ?_, hl2⟩
          intro c2 hc2 hsc2
          rcases List.mem_cons.mp hc2 with rfl | hc2m
          · exact lt_of_le_of_lt (not_lt.mp hlt) hba
          · exact hl1 c2 hc2m hsc2
    · have hsel : selectBest minArea (some bb) ba (c0 :: rest) =
          selectBest minArea (some bb) ba rest :=
        selectBest_cons_reject minArea (some bb) ba c0 rest hs
      rcases ih bb ba with ⟨heq, hall⟩ | ⟨l1, c, l2, hsplit, hsc, hba, hres, hl1, hl2⟩
      · left
        refine ⟨by rw [hsel, heq], ?_⟩
        intro c2 hc2 hsc2
        rcases List.mem_cons.mp hc2 with rfl | hc2m
        · exact absurd hsc2 hs
        · exact hall c2 hc2m hsc2
      · right
        refine ⟨c0 :: l1, c, l2, by simp [hsplit], hsc, hba, by rw [hsel, hres], ?_, hl2⟩
        intro c2 hc2 hsc2
        rcases List.mem_cons.mp hc2 with rfl | hc2m
        · exact absurd hsc2 hs
        · exact hl1 c2 hc2m hsc2

lemma selectBest_none_iff (minArea : ℚ) (cs : List Contour) :
    selectBest minArea none 0 cs = none ↔ ∀ c ∈ cs, ¬ survives minArea c := by
  induction cs with
  | nil => simp [selectBest]
  | cons c0 rest ih =>
    by_cases hs : survives minArea c0
    · rw [selectBest_cons_accept minArea none 0 c0 rest hs,
        if_pos (survives_area_pos minArea c0 hs)]
      obtain ⟨r, hr⟩ := selectBest_some_isSome minArea rest (bboxOf c0) c0.area
      rw [hr]
      simp only [List.forall_mem_cons]
      constructor
      · intro h
        cases h
      · intro h
        exact absurd hs h.1
    · rw [selectBest_cons_reject minArea none 0 c0 rest hs, ih]
      simp [List.forall_mem_cons, hs]

lemma selectBest_none_some (minArea : ℚ) (cs : List Contour) (b : BBox)
    (h : selectBest minArea none 0 cs = some b) :
    ∃ l1 c l2, cs = l1 ++ c :: l2 ∧ survives minArea c ∧ b = bboxOf c ∧
      (∀ c2 ∈ l1, survives minArea c2 → c2.area < c.area) ∧
      (∀ c2 ∈ l2, survives minArea c2 → c2.area ≤ c.area) := by
  induction cs with
  | nil => cases h
  | cons c0 rest ih =>
    by_cases hs : survives minArea c0
    · rw [selectBest_cons_accept minArea none 0 c0 rest hs,
        if_pos (survives_area_pos minArea c0 hs)] at h
      rcases selectBest_go minArea rest (bboxOf c0) c0.area with ⟨heq, hall⟩ |
        ⟨l1, c, l2, hsplit, hsc, hba, hres, hl1, hl2⟩
      · rw [heq] at h
        refine ⟨[], c0, rest, rfl, hs, ?_, by simp, hall⟩
        injection h with hb
        exact hb.symm
      · rw [hres] at h
        have hb : b = bboxOf c := by
          injection h with hb
          exact hb.symm
        refine ⟨c0 :: l1, c, l2, by simp [hsplit], hsc, hb, ?_, hl2⟩
        intro c2 hc2 hsc2
        rcases List.mem_cons.mp hc2 with rfl | hc2m
        · exact hba
        · exact hl1 c2 hc2m hsc2
    · rw [selectBest_cons_reject minArea none 0 c0 rest hs] at h
      obtain ⟨l1, c, l2, hsplit, hsc, hb, hl1, hl2⟩ := ih h
      refine ⟨c0 :: l1, c, l2, by simp [hsplit], hsc, hb, ?_, hl2⟩
      intro c2 hc2 hsc2
      rcases List.mem_cons.mp hc2 with rfl | hc2m
      · exact absurd hsc2 hs
      · exact hl1 c2 hc2m hsc2

/-- Claim C3: the Region Detector rejects exactly the contours failing the
area / solidity / aspect filters; it returns `none` iff no contour survives,
and any returned box is the bounding box of a surviving contour of maximal
contour area, the first such contour in traversal order (every earlier
survivor is strictly smaller, every later one is no larger). -/
theorem detect_label_region_spec (imgH imgW : ℕ) (cs : List Contour) :
    (detect_label_region imgH imgW cs = none ↔
      ∀ c ∈ cs, ¬ survives (minAreaOf imgH imgW) c) ∧
    (∀ b, detect_label_region imgH imgW cs = some b →
      ∃ l1 c l2, cs = l1 ++ c :: l2 ∧ survives (minAreaOf imgH imgW) c ∧ b = bboxOf c ∧
        (∀ c2 ∈ l1, survives (minAreaOf imgH imgW) c2 → c2.area < c.area) ∧
        (∀ c2 ∈ l2, survives (minAreaOf imgH imgW) c2 → c2.area ≤ c.area)) := by
  cases cs with
  | nil =>
    constructor
    · simp [detect_label_region]
    · intro b hb
      simp [detect_label_region] at hb
  | cons c0 rest =>
    have hne : ¬ (c0 :: rest).isEmpty := by simp
    constructor
    · rw [detect_label_region, if_neg (by simp)]
      exact selectBest_none_iff (minAreaOf imgH imgW) (c0 :: rest)
    · intro b hb
      rw [detect_label_region, if_neg (by simp)] at hb
      exact selectBest_none_some (minAreaOf imgH imgW) (c0 :: rest) b hb

/-- Claim C3 witness: in a 20×20 image, a degenerate contour (zero-area
bounding rectangle) is rejected and the detector returns nothing. -/
theorem detect_label_region_spec_witness :
    detect_label_region 20 20 [⟨0, 1, 1, 0, 5⟩] = none :=
  (detect_label_region_spec 20 20 [⟨0, 1, 1, 0, 5⟩]).1.mpr (by
    intro c hc
    simp only [List.mem_singleton] at hc
    subst hc
    intro hsv
    exact absurd rfl hsv.2.1)

/-! ### Line Segmenter: `segment_text_lines` (main.py lines 141-196)

The image is a row-major list of rows of BGR pixels.  `cv2.cvtColor(...,
COLOR_BGR2GRAY)` uses the fixed-point coefficients
`(B*1868 + G*9617 + R*4899 + 8192) >> 14`.  `cv2.threshold(gray, 0, 255,
THRESH_BINARY_INV + THRESH_OTSU)` computes the Otsu threshold with OpenCV's
reference routine `getThreshVal_Otsu_8u` (embedded below in exact rational
arithmetic, including its `FLT_EPSILON` guards) and then maps
`dst = 0 if src > thresh else 255`. -/

abbrev Pixel := ℕ × ℕ × ℕ

/-- OpenCV BGR→gray conversion (fixed-point, round-half-up via the +8192). -/
def bgr2gray (p : Pixel) : ℕ := (p.1 * 1868 + p.2.1 * 9617 + p.2.2 * 4899 + 8192) / 16384

def grayImage (img : List (List Pixel)) : List (List ℕ) := img.map (List.map bgr2gray)

/-- Normalized histogram value `p_i = h[i] * scale` accumulation state step of
OpenCV's `getThreshVal_Otsu_8u`: state is `(q1, mu1, max_sigma, max_val)`. -/
def otsuStep (hist : ℕ → ℚ) (scale mu : ℚ) (st : ℚ × ℚ × ℚ × ℕ) (i : ℕ) :
    ℚ × ℚ × ℚ × ℕ :=
  let p_i := hist i * scale
  let mu1a := st.2.1 * st.1
  let q1a := st.1 + p_i
  let q2 := 1 - q1a
  if min q1a q2 < FLT_EPSILON ∨ 1 - FLT_EPSILON < max q1a q2 then
    (q1a, mu1a, st.2.2.1, st.2.2.2)
  else
    let mu1b := (mu1a + (i : ℚ) * p_i) / q1a
    let mu2 := (mu - q1a * mu1b) / q2
    let sigma := q1a * q2 * (mu1b - mu2) * (mu1b - mu2)
    if st.2.2.1 < sigma then (q1a, mu1b, sigma, i) else (q1a, mu1b, st.2.2.1, st.2.2.2)

def otsuHist (pixels : List ℕ) (i : ℕ) : ℚ := ((pixels.count i : ℕ) : ℚ)

def otsuScale (pixels : List ℕ) : ℚ := 1 / ((pixels.length : ℕ) : ℚ)

def otsuMu (pixels : List ℕ) : ℚ :=
  (((List.range 256).map (fun i : ℕ => (i : ℚ) * otsuHist pixels i)).sum) * otsuScale pixels

/-- The returned `max_val` component of the Otsu scan state. -/
def otsuMaxVal (st : ℚ × ℚ × ℚ × ℕ) : ℕ := st.2.2.2

def otsuThreshold (pixels : List ℕ) : ℕ :=
  otsuMaxVal ((List.range 256).foldl
    (otsuStep (otsuHist pixels) (otsuScale pixels) (otsuMu pixels)) (0, 0, 0, 0))

/-- `THRESH_BINARY_INV`: ink (≤ threshold) → 255, background → 0. -/
def binarizeInv (thresh : ℕ) (gray : List (List ℕ)) : List (List ℕ) :=
  gray.map (List.map (fun v => if thresh < v then 0 else 255))

/-- The `for i, is_text in enumerate(text_rows)` band-grouping loop
(main.py lines 158-170), with its `in_band` / `band_start` state. -/
def collectBandsGo : ℕ → Bool → ℕ → List Bool → List (ℕ × ℕ)
  | i, inBand, bandStart, [] => if inBand then [(bandStart, i)] else []
  | i, inBand, bandStart, b :: rest =>
    if b && !inBand then collectBandsGo (i + 1) true i rest
    else if !b && inBand then (bandStart, i) :: collectBandsGo (i + 1) false bandStart rest
    else collectBandsGo (i + 1) inBand bandStart rest

def collectBands (text_rows : List Bool) : List (ℕ × ℕ) :=
  collectBandsGo 0 false 0 text_rows

/-- Python slice `l[a:b]` for nonnegative clamped indices. -/
def pySlice {α : Type} (l : List α) (a b : ℕ) : List α := (l.drop a).take (b - a)

/-- Per-band processing (main.py lines 175-194): height filter, vertical
padding, column-ink trimming; `none` models Python's `continue`. -/
def processBand (label_img : List (List Pixel)) (binary : List (List ℕ))
    (label_h label_w : ℕ) (band : ℕ × ℕ) : Option (List (List Pixel)) :=
  let y_start := band.1
  let y_end := band.2
  let band_h := y_end - y_start
  if band_h < SEG_MIN_BAND_HEIGHT then none
  else
    let v_pad := max 5 (Int.toNat ⌊(band_h : ℚ) * SEG_BAND_PAD_FRACTION⌋)
    let y1 := y_start - v_pad
    let y2 := min label_h (y_end + v_pad)
    let band_bin := pySlice binary y_start y_end
    let text_cols := (List.range label_w).filter
      (fun j => decide (SEG_COL_MIN_INK <
        (((band_bin.map (fun row => row.getD j 0)).sum : ℕ) : ℚ) / 255))
    match text_cols with
    | [] => none
    | j0 :: restCols =>
      let x1 := j0 - 10
      let x2 := min label_w ((j0 :: restCols).getLastD 0 + 10)
      some ((pySlice label_img y1 y2).map (fun row => pySlice row x1 x2))

def segment_text_lines (label_img : List (List Pixel)) : List (List (List Pixel)) :=
  let gray := grayImage label_img
  let binary := binarizeInv (otsuThreshold gray.flatten) gray
  let label_w := (label_img.headD []).length
  let text_rows := binary.map
    (fun row => decide (((label_w : ℕ) : ℚ) * SEG_ROW_INK_FRACTION <
      ((row.sum : ℕ) : ℚ) / 255))
  (collectBands text_rows).filterMap (processBand label_img binary label_img.length label_w)

lemma flatten_replicate_replicate {α : Type} (n m : ℕ) (a : α) :
    (List.replicate n (List.replicate m a)).flatten = List.replicate (n * m) a := by
  induction n with
  | zero => simp
  | succ k ih =>
    rw [List.replicate_succ, List.flatten_cons, ih, ← List.replicate_add]
    congr 1
    ring

lemma otsuStep_zero (hist : ℕ → ℚ) (scale mu : ℚ) (i : ℕ) (hz : hist i * scale = 0)
    (s : ℚ) (t : ℕ) : otsuStep hist scale mu (0, 0, s, t) i = (0, 0, s, t) := by
  simp only [otsuStep, hz]
  norm_num [FLT_EPSILON]

lemma otsuStep_one (hist : ℕ → ℚ) (scale mu : ℚ) (i : ℕ) (hz : hist i * scale = 0)
    (s : ℚ) (t : ℕ) : otsuStep hist scale mu (1, 0, s, t) i = (1, 0, s, t) := by
  simp only [otsuStep, hz]
  norm_num [FLT_EPSILON]

lemma otsuStep_jump (hist : ℕ → ℚ) (scale mu : ℚ) (i : ℕ) (h1 : hist i * scale = 1)
    (s : ℚ) (t : ℕ) : otsuStep hist scale mu (0, 0, s, t) i = (1, 0, s, t) := by
  simp only [otsuStep, h1]
  norm_num [FLT_EPSILON]

lemma foldl_otsu_zero (hist : ℕ → ℚ) (scale mu : ℚ) (l : List ℕ)
    (hl : ∀ i ∈ l, hist i * scale = 0) (s : ℚ) (t : ℕ) :
    l.foldl (otsuStep hist scale mu) (0, 0, s, t) = (0, 0, s, t) := by
  induction l with
  | nil => rfl
  | cons a l ih =>
    rw [List.foldl_cons, otsuStep_zero hist scale mu a (hl a (List.mem_cons_self a l)) s t]
    exact ih (fun i hi => hl i (List.mem_cons_of_mem a hi))

lemma foldl_otsu_one (hist : ℕ → ℚ) (scale mu : ℚ) (l : List ℕ)
    (hl : ∀ i ∈ l, hist i * scale = 0) (s : ℚ) (t : ℕ) :
    l.foldl (otsuStep hist scale mu) (1, 0, s, t) = (1, 0, s, t) := by
  induction l with
  | nil => rfl
  | cons a l ih =>
    rw [List.foldl_cons, otsuStep_one hist scale mu a (hl a (List.mem_cons_self a l)) s t]
    exact ih (fun i hi => hl i (List.mem_cons_of_mem a hi))

/-- On a uniform image OpenCV's Otsu routine never clears the `FLT_EPSILON`
guard (the class split is always degenerate), so `max_val` stays 0. -/
lemma otsu_uniform (N g : ℕ) (hN : 0 < N) :
    otsuThreshold (List.replicate N g) = 0 := by
  have hNq : ((N : ℕ) : ℚ) ≠ 0 := by
    exact_mod_cast hN.ne'
  have hzero : ∀ i : ℕ, i ≠ g →
      otsuHist (List.replicate N g) i * otsuScale (List.replicate N g) = 0 := by
    intro i hig
    have : (List.replicate N g).count i = 0 := by
      rw [List.count_replicate]
      simp [Ne.symm hig]
    rw [otsuHist, this]
    simp
  have hone : otsuHist (List.replicate N g) g * otsuScale (List.replicate N g) = 1 := by
    have : (List.replicate N g).count g = N := by
      rw [List.count_replicate]
      simp
    rw [otsuHist, this, otsuScale, List.length_replicate]
    field_simp
  by_cases hg : g < 256
  · have hsplit : List.range 256 = List.range' 0 g ++ g :: List.range' (g + 1) (255 - g) := by
      have happ := List.range'_append 0 g (256 - g) 1
      rw [show (256 - g) + g = 256 by omega] at happ
      simp only [Nat.zero_add, Nat.one_mul] at happ
      rw [List.range_eq_range', ← happ, show 256 - g = (255 - g) + 1 by omega,
        List.range'_succ]
    rw [otsuThreshold, hsplit, List.foldl_append]
    rw [foldl_otsu_zero _ _ _ _ (fun i hi => hzero i (by
      have := List.mem_range'_1.mp hi
      omega)) 0 0]
    rw [List.foldl_cons, otsuStep_jump _ _ _ _ hone 0 0]
    rw [foldl_otsu_one _ _ _ _ (fun i hi => hzero i (by
      have := List.mem_range'_1.mp hi
      omega)) 0 0]
    rfl
  · rw [otsuThreshold]
    rw [foldl_otsu_zero _ _ _ _ (fun i hi => hzero i (by
      have := List.mem_range.mp hi
      omega)) 0 0]
    rfl

lemma collectBandsGo_false (n : ℕ) : ∀ (i s : ℕ),
    collectBandsGo i false s (List.replicate n false) = [] := by
  induction n with
  | zero => intro i s; rfl
  | succ m ih =>
    intro i s
    rw [List.replicate_succ]
    show collectBandsGo i false s (false :: List.replicate m false) = []
    simp only [collectBandsGo, Bool.and_false, Bool.false_and, Bool.not_false, if_neg,
      Bool.false_eq_true, not_false_eq_true]
    exact ih (i + 1) s

/-- Claim C2 (amended): a uniformly colored image whose gray value is
positive binarizes to all-background (Otsu returns threshold 0), no row is
classified as text, and the segmenter returns the empty list. -/
theorem segment_text_lines_blank (H W : ℕ) (p : Pixel)
    (hH : 0 < H) (hW : 0 < W) (hg : 0 < bgr2gray p) :
    segment_text_lines (List.replicate H (List.replicate W p)) = [] := by
  obtain ⟨H1, rfl⟩ : ∃ H1, H = H1 + 1 := ⟨H - 1, by omega⟩
  have hgray : grayImage (List.replicate (H1 + 1) (List.replicate W p)) =
      List.replicate (H1 + 1) (List.replicate W (bgr2gray p)) := by
    simp [grayImage, List.map_replicate]
  have hthresh : otsuThreshold
      (List.replicate (H1 + 1) (List.replicate W (bgr2gray p))).flatten = 0 := by
    rw [flatten_replicate_replicate]
    exact otsu_uniform _ _ (Nat.mul_pos (Nat.succ_pos H1) hW)
  have hbin : binarizeInv 0 (List.replicate (H1 + 1) (List.replicate W (bgr2gray p))) =
      List.replicate (H1 + 1) (List.replicate W 0) := by
    simp [binarizeInv, List.map_replicate, hg]
  have hhead : (List.replicate (H1 + 1) (List.replicate W p)).headD ([] : List Pixel) =
      List.replicate W p := by
    rw [List.replicate_succ, List.headD_cons]
  have hrow : decide ((((List.replicate W p).length : ℕ) : ℚ) * SEG_ROW_INK_FRACTION <
      (((List.replicate W (0 : ℕ)).sum : ℕ) : ℚ) / 255) = false := by
    apply decide_eq_false
    rw [not_lt]
    have hsum : (List.replicate W (0 : ℕ)).sum = 0 := by simp
    rw [hsum]
    have : (0 : ℚ) ≤ (((List.replicate W p).length : ℕ) : ℚ) * SEG_ROW_INK_FRACTION := by
      apply mul_nonneg (by positivity)
      norm_num [SEG_ROW_INK_FRACTION]
    simpa using this
  simp only [segment_text_lines]
  rw [hgray, hthresh, hbin, hhead]
  rw [List.map_replicate, hrow]
  have hbands : collectBands (List.replicate (H1 + 1) false) = [] :=
    collectBandsGo_false (H1 + 1) 0 0
  rw [hbands]
  rfl

/-- Claim C2 witness: a 20×30 uniformly light-gray image segments to nothing. -/
theorem segment_text_lines_blank_witness :
    segment_text_lines (List.replicate 20 (List.replicate 30 ((200, 200, 200) : Pixel))) = [] :=
  segment_text_lines_blank 20 30 (200, 200, 200) (by decide) (by decide) (by decide)

/-- Claim C2 counterexample: a uniformly *black* 15×1 image is blank, yet the
segmenter returns a crop — OpenCV's Otsu threshold on a uniform image is 0
and `THRESH_BINARY_INV` then classifies the value-0 pixels as ink, so the
whole image becomes one text band. -/
theorem segment_text_lines_blank_counterexample :
    segment_text_lines (List.replicate 15 (List.replicate 1 ((0, 0, 0) : Pixel))) ≠ [] := by
  have hgray : grayImage (List.replicate 15 (List.replicate 1 ((0, 0, 0) : Pixel))) =
      List.replicate 15 (List.replicate 1 0) := by
    with_unfolding_all decide
  have hflat : (List.replicate 15 (List.replicate 1 (0 : ℕ))).flatten =
      List.replicate 15 0 := by
    with_unfolding_all decide
  have hthresh : otsuThreshold (List.replicate 15 (0 : ℕ)) = 0 :=
    otsu_uniform 15 0 (by decide)
  simp only [segment_text_lines]
  rw [hgray, hflat, hthresh]
  with_unfolding_all decide

/-! ### Recognition collaborators and Result Normalizer (main.py lines 199-264)

The two PaddleOCR collaborators are opaque; their per-page results are
modelled by `RecPage` (line-only recognizer: a mapping with `rec_text` /
`rec_score`, or any non-mapping result) and `FbPage` (full pipeline: a
mapping with parallel `dt_polys` / `rec_texts` / `rec_scores` sequences, a
legacy list of `(box, (text, confidence))` tuples possibly containing short
tuples, or anything else).  A raised exception is modelled by
`Except.error`.  Coordinates are already rational, so the `float(...)`
conversions are the identity. -/

structure OcrItem where
  box : List (ℚ × ℚ)
  text : String
  confidence : ℚ
deriving DecidableEq

inductive RecPage where
  | dict (rec_text : String) (rec_score : ℚ) : RecPage
  | nonMapping : RecPage
deriving DecidableEq

/-- Per-page normalization in `run_rec_on_lines` (main.py lines 207-215):
non-mappings are skipped, an empty `rec_text` is skipped, and the emitted
item always has `box = []`. -/
def recPageItems : RecPage → List OcrItem
  | RecPage.dict t s => if t = "" then [] else [⟨[], t, s⟩]
  | RecPage.nonMapping => []

inductive FbLine where
  | full (box : List (ℚ × ℚ)) (text : String) (confidence : ℚ) : FbLine
  | short : FbLine
deriving DecidableEq

inductive FbPage where
  | mapping (dt_polys : List (List (ℚ × ℚ))) (rec_texts : List String)
      (rec_scores : List ℚ) : FbPage
  | legacy (lines : List FbLine) : FbPage
  | other : FbPage
deriving DecidableEq

/-- A legacy line of length ≥ 2 yields its `(box, text, confidence)`;
shorter lines are skipped (main.py lines 251-263). -/
def fbLineItems : FbLine → List OcrItem
  | FbLine.full b t c => [⟨b, t, c⟩]
  | FbLine.short => []

/-- Result normalization of one fallback page (main.py lines 236-263):
mapping pages iterate `range(min(len(texts), len(confidences)))` and default
the polygon to `[]` when `idx` is past the end of `dt_polys`; legacy pages
keep their boxes; other shapes contribute nothing. -/
def fbPageItems : FbPage → List OcrItem
  | FbPage.mapping polys texts scores =>
      (List.range (min texts.length scores.length)).map (fun idx =>
        ⟨polys.getD idx [], texts.getD idx "", scores.getD idx 0⟩)
  | FbPage.legacy lines => lines.flatMap fbLineItems
  | FbPage.other => []

/-- Claim C5: a mapping-shaped fallback page yields exactly
`min(len(texts), len(scores))` items, and any item whose index has no
corresponding polygon gets an empty polygon. -/
theorem fallback_normalizer_truncates (polys : List (List (ℚ × ℚ)))
    (texts : List String) (scores : List ℚ) :
    (fbPageItems (FbPage.mapping polys texts scores)).length =
      min texts.length scores.length ∧
    (∀ i, ∀ hi : i < (fbPageItems (FbPage.mapping polys texts scores)).length,
      polys.length ≤ i →
      ((fbPageItems (FbPage.mapping polys texts scores)).get ⟨i, hi⟩).box = []) := by
  constructor
  · simp [fbPageItems]
  · intro i hi hp
    simp only [fbPageItems, List.get_map, List.get_range]
    exact List.getD_eq_default polys [] hp

/-- Claim C5 witness: 3 texts and 2 confidence scores yield exactly 2 items;
the item at index 1 has no polygon (only 1 polygon was reported) so its
polygon is empty. -/
theorem fallback_normalizer_truncates_witness :
    (fbPageItems (FbPage.mapping [[(1, 2)]] ["a", "b", "c"] [5, 7])).length =
      min (["a", "b", "c"] : List String).length ([(5 : ℚ), 7] : List ℚ).length ∧
    ((fbPageItems (FbPage.mapping [[(1, 2)]] ["a", "b", "c"] [5, 7])).get
      ⟨1, by with_unfolding_all decide⟩).box = [] :=
  ⟨(fallback_normalizer_truncates [[(1, 2)]] ["a", "b", "c"] [5, 7]).1,
   (fallback_normalizer_truncates [[(1, 2)]] ["a", "b", "c"] [5, 7]).2 1
     (by with_unfolding_all decide) (by decide)⟩

section Dispatcher

variable {Img : Type}

/-- The stage functions and collaborators that `process_image` composes.
Keeping them as parameters makes the dispatcher's control flow the object of
study while OpenCV-level pixel processing and the model collaborators stay
opaque, matching the spec's component boundaries. -/
structure Pipeline (Img : Type) where
  detect : Img → Option BBox
  crop : Img → BBox → Img
  segment : Img → List Img
  resizeCap : Img → Img
  recPredict : Img → Except String (List RecPage)
  fbPredict : Img → Except String (List FbPage)

/-- `run_rec_on_lines` (main.py lines 199-216): the line recognizer runs on
each crop in order, items are appended in that order, and an exception
anywhere propagates. -/
def run_rec_on_lines (recPredict : Img → Except String (List RecPage)) :
    List Img → Except String (List OcrItem)
  | [] => Except.ok []
  | c :: cs =>
    match recPredict c with
    | Except.error e => Except.error e
    | Except.ok pages =>
      match run_rec_on_lines recPredict cs with
      | Except.error e => Except.error e
      | Except.ok rest => Except.ok (pages.flatMap recPageItems ++ rest)

/-- `run_fallback_ocr` (main.py lines 219-264): resize, one predict call,
normalize all pages in order. -/
def run_fallback_ocr (resizeCap : Img → Img)
    (fbPredict : Img → Except String (List FbPage)) (img : Img) :
    Except String (List OcrItem) :=
  match fbPredict (resizeCap img) with
  | Except.error e => Except.error e
  | Except.ok pages => Except.ok (pages.flatMap fbPageItems)

/-- The post-decode body of `process_image` (main.py lines 284-322): the
`if bbox is None` / `if line_crops:` strategy selection with the profiling
`path` tag of each branch (`if line_crops:` is the empty/nonempty match). -/
def process_decoded (P : Pipeline Img) (img : Img) :
    Except String (List OcrItem × String) :=
  match P.detect img with
  | none =>
    match run_fallback_ocr P.resizeCap P.fbPredict img with
    | Except.error e => Except.error e
    | Except.ok out => Except.ok (out, "fallback_no_label")
  | some bbox =>
    match P.segment (P.crop img bbox) with
    | [] =>
      match run_fallback_ocr P.resizeCap P.fbPredict (P.crop img bbox) with
      | Except.error e => Except.error e
      | Except.ok out => Except.ok (out, "fallback_no_lines")
    | c :: cs =>
      match run_rec_on_lines P.recPredict (c :: cs) with
      | Except.error e => Except.error e
      | Except.ok out => Except.ok (out, "fast_seg_rec")

/-- The `/ocr` endpoint response shape: `{results, profiling.path}` on
success, `{error, results: []}` (status 500) on failure. -/
inductive Response where
  | success (results : List OcrItem) (path : String) : Response
  | failure (error : String) (results : List OcrItem) : Response
deriving DecidableEq

/-- `process_image` (main.py lines 267-347): a `None` decode raises
`ValueError("Unable to decode image from upload")`; that and every other
exception is caught once at the request boundary and becomes the uniform
error response with an empty results list. -/
def process_image (P : Pipeline Img) (decoded : Option Img) : Response :=
  match decoded with
  | none => Response.failure "Unable to decode image from upload" []
  | some img =>
    match process_decoded P img with
    | Except.ok r => Response.success r.1 r.2
    | Except.error e => Response.failure e []

lemma run_rec_on_lines_ok (recPredict : Img → Except String (List RecPage))
    (recPages : Img → List RecPage)
    (h : ∀ i, recPredict i = Except.ok (recPages i)) (cs : List Img) :
    run_rec_on_lines recPredict cs =
      Except.ok (cs.flatMap (fun c => (recPages c).flatMap recPageItems)) := by
  induction cs with
  | nil => rfl
  | cons c cs ih =>
    rw [run_rec_on_lines, h c, ih]
    simp [List.flatMap_cons]

/-- Claim C1: for every successfully decoded image the dispatcher picks
exactly one of the three strategies: no region → fallback recognizer on the
(resized) original image, tag `fallback_no_label`; region and ≥1 crops →
line recognizer on each crop independently in order, tag `fast_seg_rec`;
region and 0 crops → fallback recognizer on the (resized) cropped label,
tag `fallback_no_lines`. -/
theorem dispatcher_three_strategies (P : Pipeline Img) (img : Img)
    (recPages : Img → List RecPage) (fbPages : Img → List FbPage)
    (hrec : ∀ i, P.recPredict i = Except.ok (recPages i))
    (hfb : ∀ i, P.fbPredict i = Except.ok (fbPages i)) :
    (P.detect img = none →
      process_image P (some img) =
        Response.success ((fbPages (P.resizeCap img)).flatMap fbPageItems)
          "fallback_no_label") ∧
    (∀ bbox, P.detect img = some bbox →
      (P.segment (P.crop img bbox) = [] →
        process_image P (some img) =
          Response.success
            ((fbPages (P.resizeCap (P.crop img bbox))).flatMap fbPageItems)
            "fallback_no_lines") ∧
      (P.segment (P.crop img bbox) ≠ [] →
        process_image P (some img) =
          Response.success
            ((P.segment (P.crop img bbox)).flatMap
              (fun c => (recPages c).flatMap recPageItems))
            "fast_seg_rec")) := by
  refine ⟨?_, fun bbox hdet => ⟨?_, ?_⟩⟩
  · intro hdet
    simp [process_image, process_decoded, hdet, run_fallback_ocr, hfb]
  · intro hseg
    simp [process_image, process_decoded, hdet, hseg, run_fallback_ocr, hfb]
  · intro hseg
    cases hcrops : P.segment (P.crop img bbox) with
    | nil => exact absurd hcrops hseg
    | cons c cs =>
      rw [← hcrops]
      simp [process_image, process_decoded, hdet, hcrops,
        run_rec_on_lines_ok P.recPredict recPages hrec]

/-- Claim C6: a recognition-collaborator exception in whichever branch fired
propagates out of `process_decoded` and is surfaced as the request-level
error response with the error message and an empty results list — never as
a success under some strategy tag. -/
theorem collaborator_failure_is_request_error (P : Pipeline Img) (img : Img)
    (e : String) :
    (process_decoded P img = Except.error e →
      process_image P (some img) = Response.failure e []) ∧
    (P.detect img = none → P.fbPredict (P.resizeCap img) = Except.error e →
      process_decoded P img = Except.error e) ∧
    (∀ bbox, P.detect img = some bbox → P.segment (P.crop img bbox) = [] →
      P.fbPredict (P.resizeCap (P.crop img bbox)) = Except.error e →
      process_decoded P img = Except.error e) ∧
    (∀ bbox c cs, P.detect img = some bbox → P.segment (P.crop img bbox) = c :: cs →
      P.recPredict c = Except.error e →
      process_decoded P img = Except.error e) := by
  refine ⟨?_, ?_, ?_, ?_⟩
  · intro h
    simp [process_image, h]
  · intro hdet hfb
    simp [process_decoded, hdet, run_fallback_ocr, hfb]
  · intro bbox hdet hseg hfb
    simp [process_decoded, hdet, hseg, run_fallback_ocr, hfb]
  · intro bbox c cs hdet hseg hrec
    simp [process_decoded, hdet, hseg, run_rec_on_lines, hrec]

/-- Claim C10: the fast path silently drops non-mapping pages and pages with
empty recognized text; if every page of every crop is dropped the request
still succeeds on the `fast_seg_rec` path with zero items — the fallback is
not triggered and no error is raised. -/
theorem fast_path_skips_unusable_pages (P : Pipeline Img) (img : Img) (bbox : BBox)
    (recPages : Img → List RecPage)
    (hrec : ∀ i, P.recPredict i = Except.ok (recPages i))
    (hdet : P.detect img = some bbox)
    (hne : P.segment (P.crop img bbox) ≠ [])
    (hskip : ∀ c ∈ P.segment (P.crop img bbox), ∀ page ∈ recPages c,
      page = RecPage.nonMapping ∨ ∃ s, page = RecPage.dict "" s) :
    process_image P (some img) = Response.success [] "fast_seg_rec" := by
  have hflat : (P.segment (P.crop img bbox)).flatMap
      (fun c => (recPages c).flatMap recPageItems) = [] := by
    apply List.bind_eq_nil.mpr
    intro c hc
    apply List.bind_eq_nil.mpr
    intro page hp
    rcases hskip c hc page hp with rfl | ⟨s, rfl⟩
    · rfl
    · simp [recPageItems]
  cases hcrops : P.segment (P.crop img bbox) with
  | nil => exact absurd hcrops hne
  | cons c cs =>
    rw [hcrops] at hflat
    simp [process_image, process_decoded, hdet, hcrops,
      run_rec_on_lines_ok P.recPredict recPages hrec, hflat]

/-- Claim C9: every item from the line-only fast path has an empty polygon,
while fallback items carry the polygon the full collaborator reported for
their index (defaulting to empty when none was reported): mapping-page item
`i` carries `dt_polys[i]`, legacy-page items carry their tuple's box, and if
the collaborator reports a nonempty polygon for every index then every
mapping-page item has nonempty geometry. -/
theorem geometry_presence_by_strategy
    (recPredict : Img → Except String (List RecPage)) :
    (∀ (cs : List Img) (items : List OcrItem),
      run_rec_on_lines recPredict cs = Except.ok items → ∀ it ∈ items, it.box = []) ∧
    (∀ (polys : List (List (ℚ × ℚ))) (texts : List String) (scores : List ℚ) (i : ℕ),
      ∀ hi : i < (fbPageItems (FbPage.mapping polys texts scores)).length,
      ((fbPageItems (FbPage.mapping polys texts scores)).get ⟨i, hi⟩).box =
        polys.getD i []) ∧
    (∀ (lines : List FbLine) (b : List (ℚ × ℚ)) (t : String) (c : ℚ),
      FbLine.full b t c ∈ lines →
      (⟨b, t, c⟩ : OcrItem) ∈ fbPageItems (FbPage.legacy lines)) ∧
    (∀ (polys : List (List (ℚ × ℚ))) (texts : List String) (scores : List ℚ),
      (∀ i, i < min texts.length scores.length → polys.getD i [] ≠ []) →
      ∀ it ∈ fbPageItems (FbPage.mapping polys texts scores), it.box ≠ []) := by
  refine ⟨?_, ?_, ?_, ?_⟩
  · intro cs
    induction cs with
    | nil =>
      intro items h it hit
      rw [run_rec_on_lines] at h
      cases h
      cases hit
    | cons c cs ih =>
      intro items h it hit
      rw [run_rec_on_lines] at h
      cases hp : recPredict c with
      | error e =>
        rw [hp] at h
        cases h
      | ok pages =>
        rw [hp] at h
        cases hr : run_rec_on_lines recPredict cs with
        | error e =>
          rw [hr] at h
          cases h
        | ok rest =>
          rw [hr] at h
          cases h
          rcases List.mem_append.mp hit with hl | hr2
          · obtain ⟨page, hpage, hitp⟩ := List.mem_flatMap.mp hl
            cases page with
            | dict t s =>
              by_cases ht : t = ""
              · simp [recPageItems, ht] at hitp
              · simp [recPageItems, ht] at hitp
                rw [hitp]
            | nonMapping => simp [recPageItems] at hitp
          · exact ih rest hr it hr2
  · intro polys texts scores i hi
    simp only [fbPageItems, List.get_map, List.get_range]
  · intro lines b t c hmem
    simp only [fbPageItems]
    exact List.mem_flatMap.mpr ⟨FbLine.full b t c, hmem, by simp [fbLineItems]⟩
  · intro polys texts scores hpolys it hit
    simp only [fbPageItems, List.mem_map, List.mem_range] at hit
    obtain ⟨i, hilt, rfl⟩ := hit
    exact hpolys i hilt

end Dispatcher

/-! Concrete pipelines over `ℕ` images, used to exhibit satisfiable
hypotheses for the dispatcher theorems. -/

/-- Detector finds nothing; both collaborators answer with no pages. -/
def pipeNoLabel : Pipeline ℕ :=
  ⟨fun _ => none, fun i _ => i, fun _ => [], fun i => i,
   fun _ => Except.ok [], fun _ => Except.ok []⟩

/-- Detector finds a box, segmenter yields one crop, line recognizer returns
only unusable pages. -/
def pipeSkip : Pipeline ℕ :=
  ⟨fun _ => some (0, 0, 1, 1), fun i _ => i, fun _ => [5], fun i => i,
   fun _ => Except.ok [RecPage.nonMapping, RecPage.dict "" 1],
   fun _ => Except.ok []⟩

/-- Detector finds nothing and the fallback collaborator raises. -/
def pipeErrFb : Pipeline ℕ :=
  ⟨fun _ => none, fun i _ => i, fun _ => [], fun i => i,
   fun _ => Except.ok [], fun _ => Except.error "boom"⟩

/-- Claim C1 witness: on the no-label pipeline the request succeeds via the
whole-image fallback with tag `fallback_no_label`. -/
theorem dispatcher_three_strategies_witness :
    process_image pipeNoLabel (some 0) = Response.success [] "fallback_no_label" := by
  have h := (dispatcher_three_strategies pipeNoLabel 0 (fun _ => []) (fun _ => [])
    (fun _ => rfl) (fun _ => rfl)).1 rfl
  simpa using h

/-- Claim C6 witness: a raising fallback collaborator yields the error
response with empty results. -/
theorem collaborator_failure_witness :
    process_image pipeErrFb (some 0) = Response.failure "boom" [] := by
  have h2 := (collaborator_failure_is_request_error pipeErrFb 0 "boom").2.1 rfl rfl
  exact (collaborator_failure_is_request_error pipeErrFb 0 "boom").1 h2

/-- Claim C10 witness: one crop whose pages are all unusable still succeeds
on the fast path with zero items. -/
theorem fast_path_skips_witness :
    process_image pipeSkip (some 0) = Response.success [] "fast_seg_rec" := by
  refine fast_path_skips_unusable_pages pipeSkip 0 (0, 0, 1, 1)
    (fun _ => [RecPage.nonMapping, RecPage.dict "" 1]) (fun _ => rfl) rfl
    (by simp [pipeSkip]) ?_
  intro c hc page hp
  simp only [List.mem_cons, List.mem_singleton] at hp
  rcases hp with rfl | hp
  · exact Or.inl rfl
  · rcases hp with rfl | hp
    · exact Or.inr ⟨1, rfl⟩
    · cases hp

/-- Claim C9 witness: a concrete fast-path item has empty geometry and a
concrete legacy fallback line's box is carried through. -/
theorem geometry_presence_witness :
    ((⟨[], "x", (1 : ℚ)⟩ : OcrItem).box = []) ∧
    ((⟨[(1, 2)], "y", (3 : ℚ)⟩ : OcrItem) ∈
      fbPageItems (FbPage.legacy [FbLine.full [(1, 2)] "y" 3])) := by
  constructor
  · exact (geometry_presence_by_strategy
      (fun _ : ℕ => Except.ok [RecPage.dict "x" 1])).1 [0] [⟨[], "x", 1⟩]
      (by simp [run_rec_on_lines, recPageItems]) ⟨[], "x", 1⟩ (by simp)
  · exact (geometry_presence_by_strategy
      (fun _ : ℕ => Except.ok [RecPage.dict "x" 1])).2.2.1
      [FbLine.full [(1, 2)] "y" 3] [(1, 2)] "y" 3 (by simp)

end OcrPipeline
